import Mathlib

/-!
# Trading account simulator: a shallow embedding

This file embeds the three `Account` implementations found in the
repository and proves the specification claims against them:

* `AcctA` — `src/agents/3_crew/engineering_team/output/accounts.py`
  (total price oracle with a default price of 100.00 for unknown
  symbols, no case normalization of symbols, constructor without an
  initial deposit, `initial_deposit_total` grows with every deposit).
* `AcctW` — `src/agents/crew/engineering_team/output/verified_outputs/accounts_working.py`
  (partial price oracle that raises on unknown symbols, symbols
  upper-cased on entry to `buy_shares`/`sell_shares`, constructor sets
  the balance directly from `initial_deposit` without recording a
  transaction, `initial_deposit` never changed afterwards).
* `AcctT` — the `Account` class embedded in
  `src/agents/crew/engineering_team/output/test_accounts.py`
  (constructor rejects a negative initial deposit and routes a positive
  one through `deposit`, valuation skips unpriceable held symbols).

Modelling conventions:
* Python `float` amounts are modelled as exact rationals `ℚ`; all the
  literals appearing in the sources are dyadic and the arithmetic the
  claims are about is exact.
* A Python `dict` is modelled as an insertion-ordered association list
  with the update / default-get / delete operations used by the code.
* Raising an exception is modelled by returning `some e` for an error
  kind `e` together with the state at the moment of the raise, so that
  a hypothetical raise after a mutation would be observable.
* The `timestamp` field of a transaction record (wall-clock
  `datetime.now()`) is omitted: no claim concerns it.
-/

/-- Error kinds of §7 of the specification.  The Python sources raise
`ValueError`, `InsufficientFundsError`, `InsufficientSharesError` or
`TradingError`; each raise site corresponds to exactly one of these
kinds. -/
inductive Err where
  | invalidAmount
  | invalidQuantity
  | insufficientFunds
  | insufficientShares
  | unknownSymbol
deriving DecidableEq, Repr

/-! ## Python `dict` operations on insertion-ordered association lists -/

/-- `d.get(k, dflt)`: value of the first entry with key `k`, or `dflt`. -/
def dget {α : Type} (m : List (String × α)) (k : String) (dflt : α) : α :=
  match m with
  | [] => dflt
  | (k', v) :: t => if k' = k then v else dget t k dflt

/-- `d[k] = v`: replace the value of the first entry with key `k` in
place, or append a new entry at the end (Python dicts preserve
insertion order). -/
def dset {α : Type} (m : List (String × α)) (k : String) (v : α) :
    List (String × α) :=
  match m with
  | [] => [(k, v)]
  | (k', v') :: t => if k' = k then (k, v) :: t else (k', v') :: dset t k v

/-- `del d[k]`: remove the first entry with key `k`. -/
def derase {α : Type} (m : List (String × α)) (k : String) :
    List (String × α) :=
  match m with
  | [] => []
  | (k', v') :: t => if k' = k then t else (k', v') :: derase t k

/-- `k in d`. -/
def hasKey {α : Type} (m : List (String × α)) (k : String) : Bool :=
  match m with
  | [] => false
  | (k', _) :: t => if k' = k then true else hasKey t k

/-- `d.get(k)`: value of the first entry with key `k`, if any. -/
def dlook {α : Type} (m : List (String × α)) (k : String) : Option α :=
  match m with
  | [] => none
  | (k', v) :: t => if k' = k then some v else dlook t k

theorem dget_dset_self {α : Type} (m : List (String × α)) (k : String)
    (v dflt : α) : dget (dset m k v) k dflt = v := by
  induction m with
  | nil => simp [dget, dset]
  | cons p t ih =>
    obtain ⟨k', v'⟩ := p
    by_cases h : k' = k <;> simp [dget, dset, h, ih]

theorem dset_dset_self {α : Type} (m : List (String × α)) (k : String)
    (v w : α) : dset (dset m k v) k w = dset m k w := by
  induction m with
  | nil => simp [dset]
  | cons p t ih =>
    obtain ⟨k', v'⟩ := p
    by_cases h : k' = k <;> simp [dset, h, ih]

theorem dget_of_not_hasKey {α : Type} (m : List (String × α)) (k : String)
    (dflt : α) (h : hasKey m k = false) : dget m k dflt = dflt := by
  induction m with
  | nil => simp [dget]
  | cons p t ih =>
    obtain ⟨k', v'⟩ := p
    by_cases hk : k' = k
    · simp [hasKey, hk] at h
    · simp [hasKey, hk] at h
      simp [dget, hk, ih h]

theorem derase_dset_of_not_hasKey {α : Type} (m : List (String × α))
    (k : String) (v : α) (h : hasKey m k = false) :
    derase (dset m k v) k = m := by
  induction m with
  | nil => simp [dset, derase]
  | cons p t ih =>
    obtain ⟨k', v'⟩ := p
    by_cases hk : k' = k
    · simp [hasKey, hk] at h
    · simp [hasKey, hk] at h
      simp [dset, derase, hk, ih h]

theorem hasKey_dset_self {α : Type} (m : List (String × α)) (k : String)
    (v : α) : hasKey (dset m k v) k = true := by
  induction m with
  | nil => simp [dset, hasKey]
  | cons p t ih =>
    obtain ⟨k', v'⟩ := p
    by_cases h : k' = k <;> simp [dset, hasKey, h, ih]

theorem hasKey_of_dget_ne {α : Type} (m : List (String × α)) (k : String)
    (dflt : α) (h : dget m k dflt ≠ dflt) : hasKey m k = true := by
  induction m with
  | nil => simp [dget] at h
  | cons p t ih =>
    obtain ⟨k', v'⟩ := p
    by_cases hk : k' = k
    · simp [hasKey, hk]
    · simp [dget, hk] at h
      simp [hasKey, hk, ih h]

theorem mem_dset {α : Type} {m : List (String × α)} {k : String} {v : α}
    {p : String × α} (h : p ∈ dset m k v) : p = (k, v) ∨ p ∈ m := by
  induction m with
  | nil => simpa [dset] using h
  | cons q t ih =>
    obtain ⟨k', v'⟩ := q
    by_cases hk : k' = k
    · simp [dset, hk] at h
      rcases h with h | h
      · exact Or.inl h
      · exact Or.inr (List.mem_cons_of_mem _ h)
    · simp [dset, hk] at h
      rcases h with h | h
      · exact Or.inr (by simp [h])
      · rcases ih h with h' | h'
        · exact Or.inl h'
        · exact Or.inr (List.mem_cons_of_mem _ h')

theorem mem_derase {α : Type} {m : List (String × α)} {k : String}
    {p : String × α} (h : p ∈ derase m k) : p ∈ m := by
  induction m with
  | nil => simp [derase] at h
  | cons q t ih =>
    obtain ⟨k', v'⟩ := q
    by_cases hk : k' = k
    · simp only [derase, if_pos hk] at h
      exact List.mem_cons_of_mem _ h
    · simp [derase, hk] at h
      rcases h with h | h
      · simp [h]
      · exact List.mem_cons_of_mem _ (ih h)

/-! ## Python `str.upper()` (ASCII fragment, as used for ticker symbols) -/

/-- Python's `str.upper()` on the ASCII fragment: map `a`–`z` to
`A`–`Z` character-wise (that is all the sources rely on for ticker
symbols). -/
def pyUpper (s : String) : String :=
  ⟨s.data.map Char.toUpper⟩

theorem char_toUpper_not_lower (c : Char) :
    ¬(97 ≤ c.toUpper.toNat ∧ c.toUpper.toNat ≤ 122) := by
  unfold Char.toUpper
  by_cases h : c.toNat ≥ 97 ∧ c.toNat ≤ 122
  · rw [if_pos h]
    obtain ⟨h1, h2⟩ := h
    set m := c.toNat - 32 with hm
    have hml : 65 ≤ m := by omega
    have hmu : m ≤ 90 := by omega
    interval_cases m <;> decide
  · rw [if_neg h]
    exact h

theorem char_toUpper_idem (c : Char) : c.toUpper.toUpper = c.toUpper := by
  have h := char_toUpper_not_lower c
  show (if c.toUpper.toNat ≥ 97 ∧ c.toUpper.toNat ≤ 122 then
      Char.ofNat (c.toUpper.toNat - 32) else c.toUpper) = c.toUpper
  rw [if_neg]
  exact h

theorem pyUpper_idem (s : String) : pyUpper (pyUpper s) = pyUpper s := by
  simp only [pyUpper, List.map_map]
  congr 1
  apply List.map_congr_left
  intro c _
  exact char_toUpper_idem c

/-! ## Variant A: `src/agents/3_crew/engineering_team/output/accounts.py` -/

/-- A public mutating operation of the account (§6 of the spec). -/
inductive Op where
  | deposit (amount : ℚ)
  | withdraw (amount : ℚ)
  | buy (symbol : String) (quantity : Int)
  | sell (symbol : String) (quantity : Int)
deriving DecidableEq, Repr

namespace AcctA

/-- `get_share_price` of `accounts.py`: static table with a default
price of 100.00 for any unknown symbol (this oracle is total, it never
signals an unknown symbol). -/
def get_share_price (symbol : String) : ℚ :=
  if symbol = "AAPL" then 170.50
  else if symbol = "TSLA" then 750.00
  else if symbol = "GOOGL" then 2500.25
  else 100.00

/-- The transaction-record dict built by `Account._record_transaction`
(`timestamp` omitted, see the header). -/
structure Tx where
  type : String
  symbol : Option String
  quantity : Option Int
  price : Option ℚ
  amount : ℚ
deriving DecidableEq, Repr

/-- The mutable attributes of `Account` in `accounts.py`. -/
structure State where
  account_id : String
  balance : ℚ
  holdings : List (String × Int)
  transactions : List Tx
  initial_deposit_total : ℚ
deriving DecidableEq, Repr

/-- `Account.__init__`. -/
def init (account_id : String) : State :=
  { account_id := account_id, balance := 0, holdings := [],
    transactions := [], initial_deposit_total := 0 }

/-- `Account._record_transaction`. -/
def record_transaction (s : State) (type : String) (amount : ℚ)
    (symbol : Option String) (quantity : Option Int) (price : Option ℚ) :
    State :=
  { s with transactions := s.transactions ++
      [{ type := type, symbol := symbol, quantity := quantity,
         price := price, amount := amount }] }

/-- `Account.deposit`.  `ValueError` on a non-positive amount is the
kind `invalidAmount`. -/
def deposit (s : State) (amount : ℚ) : Option Err × State :=
  if amount ≤ 0 then (some .invalidAmount, s)
  else
    let s1 := { s with
      balance := s.balance + amount,
      initial_deposit_total := s.initial_deposit_total + amount }
    (none, record_transaction s1 "DEPOSIT" amount none none none)

/-- `Account.withdraw`. -/
def withdraw (s : State) (amount : ℚ) : Option Err × State :=
  if amount ≤ 0 then (some .invalidAmount, s)
  else if s.balance < amount then (some .insufficientFunds, s)
  else
    let s1 := { s with balance := s.balance - amount }
    (none, record_transaction s1 "WITHDRAW" (-amount) none none none)

/-- `Account.buy_shares`.  Note: no case normalization of `symbol`. -/
def buy_shares (s : State) (symbol : String) (quantity : Int) :
    Option Err × State :=
  if quantity ≤ 0 then (some .invalidQuantity, s)
  else
    let price := get_share_price symbol
    let cost := price * (quantity : ℚ)
    if s.balance < cost then (some .insufficientFunds, s)
    else
      let s1 := { s with
        balance := s.balance - cost,
        holdings := dset s.holdings symbol (dget s.holdings symbol 0 + quantity) }
      (none, record_transaction s1 "BUY" (-cost) (some symbol)
        (some quantity) (some price))

/-- `Account.sell_shares`. -/
def sell_shares (s : State) (symbol : String) (quantity : Int) :
    Option Err × State :=
  if quantity ≤ 0 then (some .invalidQuantity, s)
  else
    let current_holding := dget s.holdings symbol 0
    if current_holding < quantity then (some .insufficientShares, s)
    else
      let price := get_share_price symbol
      let proceeds := price * (quantity : ℚ)
      let h1 := dset s.holdings symbol (current_holding - quantity)
      let h2 := if dget h1 symbol 0 = 0 then derase h1 symbol else h1
      let s1 := { s with balance := s.balance + proceeds, holdings := h2 }
      (none, record_transaction s1 "SELL" proceeds (some symbol)
        (some quantity) (some price))

/-- Dispatch one public mutating operation. -/
def run (s : State) (op : Op) : Option Err × State :=
  match op with
  | .deposit a => deposit s a
  | .withdraw a => withdraw s a
  | .buy sym q => buy_shares s sym q
  | .sell sym q => sell_shares s sym q

/-- Run a sequence of operations; a failing call leaves the state it
returned (per the atomicity claim, the unchanged one). -/
def runSeq (s : State) (ops : List Op) : State :=
  ops.foldl (fun s op => (run s op).2) s

end AcctA

/-! ## Variant W:
`src/agents/crew/engineering_team/output/verified_outputs/accounts_working.py` -/

namespace AcctW

/-- The `STOCK_PRICES` table of `accounts_working.py`. -/
def STOCK_PRICES : List (String × ℚ) :=
  [("AAPL", 150.00), ("TSLA", 850.00), ("GOOGL", 2500.00)]

/-- `get_share_price` of `accounts_working.py`: upper-cases the symbol
and raises `ValueError` (here: `none`) when it is not in
`STOCK_PRICES`. -/
def get_share_price (symbol : String) : Option ℚ :=
  let symbol := pyUpper symbol
  if hasKey STOCK_PRICES symbol = false then none
  else dlook STOCK_PRICES symbol

/-- The transaction-record dict appended by the mutating methods of
`accounts_working.py` (`timestamp` omitted). -/
structure Tx where
  type : String
  symbol : String
  quantity : Int
  price_per_share : ℚ
  cash_impact : ℚ
  balance_after : ℚ
deriving DecidableEq, Repr

/-- The mutable attributes of `Account` in `accounts_working.py`. -/
structure State where
  account_holder_name : String
  cash_balance : ℚ
  initial_deposit : ℚ
  holdings : List (String × Int)
  transaction_history : List Tx
deriving DecidableEq, Repr

/-- `Account.__init__`: sets the balance directly from
`initial_deposit`; no validation, no transaction record. -/
def init (account_holder_name : String) (initial_deposit : ℚ) : State :=
  { account_holder_name := account_holder_name,
    cash_balance := initial_deposit,
    initial_deposit := initial_deposit,
    holdings := [], transaction_history := [] }

/-- `Account.deposit`.  Note that `initial_deposit` is not touched. -/
def deposit (s : State) (amount : ℚ) : Option Err × State :=
  if amount ≤ 0 then (some .invalidAmount, s)
  else
    let newBal := s.cash_balance + amount
    (none, { s with
      cash_balance := newBal,
      transaction_history := s.transaction_history ++
        [{ type := "Deposit", symbol := "CASH", quantity := 1,
           price_per_share := amount, cash_impact := amount,
           balance_after := newBal }] })

/-- `Account.withdraw`. -/
def withdraw (s : State) (amount : ℚ) : Option Err × State :=
  if amount ≤ 0 then (some .invalidAmount, s)
  else if amount > s.cash_balance then (some .insufficientFunds, s)
  else
    let newBal := s.cash_balance - amount
    (none, { s with
      cash_balance := newBal,
      transaction_history := s.transaction_history ++
        [{ type := "Withdrawal", symbol := "CASH", quantity := 1,
           price_per_share := amount, cash_impact := -amount,
           balance_after := newBal }] })

/-- `Account.buy_shares`: upper-cases the symbol on entry; a failed
price lookup propagates out of the call (kind `unknownSymbol`). -/
def buy_shares (s : State) (symbol : String) (quantity : Int) :
    Option Err × State :=
  let symbol := pyUpper symbol
  if quantity ≤ 0 then (some .invalidQuantity, s)
  else
    match get_share_price symbol with
    | none => (some .unknownSymbol, s)
    | some price =>
      let cost := price * (quantity : ℚ)
      if cost > s.cash_balance then (some .insufficientFunds, s)
      else
        let newBal := s.cash_balance - cost
        (none, { s with
          cash_balance := newBal,
          holdings := dset s.holdings symbol (dget s.holdings symbol 0 + quantity),
          transaction_history := s.transaction_history ++
            [{ type := "Buy", symbol := symbol, quantity := quantity,
               price_per_share := price, cash_impact := -cost,
               balance_after := newBal }] })

/-- `Account.sell_shares`: the share-sufficiency test
(`symbol not in self.holdings or self.holdings[symbol] < quantity`)
precedes the price lookup. -/
def sell_shares (s : State) (symbol : String) (quantity : Int) :
    Option Err × State :=
  let symbol := pyUpper symbol
  if quantity ≤ 0 then (some .invalidQuantity, s)
  else if hasKey s.holdings symbol = false ∨ dget s.holdings symbol 0 < quantity then
    (some .insufficientShares, s)
  else
    match get_share_price symbol with
    | none => (some .unknownSymbol, s)
    | some price =>
      let proceeds := price * (quantity : ℚ)
      let newBal := s.cash_balance + proceeds
      let h1 := dset s.holdings symbol (dget s.holdings symbol 0 - quantity)
      let h2 := if dget h1 symbol 0 = 0 then derase h1 symbol else h1
      (none, { s with
        cash_balance := newBal,
        holdings := h2,
        transaction_history := s.transaction_history ++
          [{ type := "Sell", symbol := symbol, quantity := quantity,
             price_per_share := price, cash_impact := proceeds,
             balance_after := newBal }] })

/-- The `for` loop of `calculate_current_holdings_value`: accumulates
`price * quantity`; a missing price raises out of the whole method
(here: `none`). -/
def holdingsValueLoop : List (String × Int) → ℚ → Option ℚ
  | [], total => some total
  | (symbol, quantity) :: rest, total =>
    match get_share_price symbol with
    | none => none
    | some price => holdingsValueLoop rest (total + price * (quantity : ℚ))

/-- `Account.calculate_current_holdings_value` of
`accounts_working.py`: no graceful degrade — an unpriceable held
symbol raises. -/
def calculate_current_holdings_value (s : State) : Option ℚ :=
  holdingsValueLoop s.holdings 0

/-- Dispatch one public mutating operation. -/
def run (s : State) (op : Op) : Option Err × State :=
  match op with
  | .deposit a => deposit s a
  | .withdraw a => withdraw s a
  | .buy sym q => buy_shares s sym q
  | .sell sym q => sell_shares s sym q

/-- Run a sequence of operations. -/
def runSeq (s : State) (ops : List Op) : State :=
  ops.foldl (fun s op => (run s op).2) s

end AcctW

/-! ## Variant T: the `Account` class embedded in
`src/agents/crew/engineering_team/output/test_accounts.py` -/

namespace AcctT

/-- The `PRICES` table of the embedded `get_share_price`. -/
def PRICES : List (String × ℚ) :=
  [("AAPL", 150.00), ("TSLA", 850.00), ("GOOGL", 2500.00)]

/-- The embedded `get_share_price`: `PRICES.get(symbol.upper())`,
raising `ValueError` (here: `none`) when absent. -/
def get_share_price (symbol : String) : Option ℚ :=
  dlook PRICES (pyUpper symbol)

/-- The transaction-record dict built by `Account._log_transaction`
(`timestamp` omitted). -/
structure Tx where
  type_str : String
  cash_impact : ℚ
  balance_after : ℚ
  symbol : Option String
  quantity : Option Int
  price_per_share : Option ℚ
deriving DecidableEq, Repr

/-- The mutable attributes of the embedded `Account` class (the
source names them `_balance`, `_holdings`, `_transactions`,
`_initial_deposit`). -/
structure State where
  account_holder_name : String
  balance : ℚ
  holdings : List (String × Int)
  transactions : List Tx
  initial_deposit : ℚ
deriving DecidableEq, Repr

/-- `Account._log_transaction`: `balance_after` snapshots the balance
at logging time. -/
def log_transaction (s : State) (type_str : String) (cash_impact : ℚ)
    (symbol : Option String) (quantity : Option Int)
    (price_per_share : Option ℚ) : State :=
  { s with transactions := s.transactions ++
      [{ type_str := type_str, cash_impact := cash_impact,
         balance_after := s.balance, symbol := symbol,
         quantity := quantity, price_per_share := price_per_share }] }

/-- `Account.deposit` of the embedded class. -/
def deposit (s : State) (amount : ℚ) : Option Err × State :=
  if amount ≤ 0 then (some .invalidAmount, s)
  else
    let s1 := { s with balance := s.balance + amount }
    (none, log_transaction s1 "DEPOSIT" amount none none none)

/-- `Account.__init__` of the embedded class: rejects a negative
initial deposit, routes a positive one through `deposit`, then sets
`_initial_deposit`. -/
def init (account_holder_name : String) (initial_deposit : ℚ) :
    Except Err State :=
  if initial_deposit < 0 then .error .invalidAmount
  else
    let s : State := {
      account_holder_name := account_holder_name,
      balance := 0, holdings := [], transactions := [],
      initial_deposit := 0 }
    if initial_deposit > 0 then
      match deposit s initial_deposit with
      | (some e, _) => .error e
      | (none, s1) => .ok { s1 with initial_deposit := initial_deposit }
    else .ok s

/-- The `for` loop of the embedded
`calculate_current_holdings_value`: `try: total += price * qty;
except ValueError: continue` — an unpriceable symbol is skipped. -/
def holdingsValueLoop : List (String × Int) → ℚ → ℚ
  | [], total => total
  | (symbol, quantity) :: rest, total =>
    match get_share_price symbol with
    | none => holdingsValueLoop rest total
    | some price => holdingsValueLoop rest (total + price * (quantity : ℚ))

/-- `Account.calculate_current_holdings_value` of the embedded class:
total, never raises. -/
def calculate_current_holdings_value (s : State) : ℚ :=
  holdingsValueLoop s.holdings 0

end AcctT

/-- The specification's description of `current_holdings_value()`
(§4.3): the sum of `price * quantity` over exactly the successfully
priced holdings, an unpriceable symbol contributing zero.  Stated
against the same oracle as `AcctT`; used to check the refinement
claim C5. -/
def specHoldingsValue (holdings : List (String × Int)) : ℚ :=
  (holdings.map (fun p =>
    match AcctT.get_share_price p.1 with
    | some price => price * (p.2 : ℚ)
    | none => 0)).sum

/-! ## Helper lemmas about the embeddings -/

theorem acctW_price_pyUpper (s : String) :
    AcctW.get_share_price (pyUpper s) = AcctW.get_share_price s := by
  simp [AcctW.get_share_price, pyUpper_idem]

theorem acctA_price_pos (symbol : String) :
    0 < AcctA.get_share_price symbol := by
  unfold AcctA.get_share_price
  split_ifs <;> norm_num

theorem acctW_price_pos (symbol : String) (p : ℚ)
    (h : AcctW.get_share_price symbol = some p) : 0 < p := by
  simp only [AcctW.get_share_price, AcctW.STOCK_PRICES, hasKey, dlook] at h
  split_ifs at h <;> simp_all <;> norm_num [← h]

theorem dget_zero_nonneg (m : List (String × Int)) (k : String)
    (h : ∀ p ∈ m, (0 : Int) < p.2) : 0 ≤ dget m k 0 := by
  induction m with
  | nil => simp [dget]
  | cons p t ih =>
    obtain ⟨k', v'⟩ := p
    by_cases hk : k' = k
    · simp only [dget, if_pos hk]
      exact le_of_lt (h (k', v') (by simp))
    · simp only [dget, if_neg hk]
      exact ih (fun p hp => h p (List.mem_cons_of_mem _ hp))

theorem mem_derase_dset {α : Type} {m : List (String × α)} {k : String}
    {v : α} {p : String × α} (h : p ∈ derase (dset m k v) k) : p ∈ m := by
  induction m with
  | nil => simp [dset, derase] at h
  | cons q t ih =>
    obtain ⟨k', v'⟩ := q
    by_cases hk : k' = k
    · simp only [dset, if_pos hk, derase, if_pos rfl] at h
      exact List.mem_cons_of_mem _ h
    · simp only [dset, if_neg hk, derase, if_neg hk] at h
      rcases List.mem_cons.mp h with h' | h'
      · simp [h']
      · exact List.mem_cons_of_mem _ (ih h')

/-! ## Claims -/

/-- C10: the constructor of `accounts_working.py` performs no
validation of the initial deposit: for every negative amount `x`,
construction succeeds (`init` is a total function) and yields a state
whose cash balance is `x`, hence negative, with an empty transaction
history and no holdings — so the non-negative-balance invariant can
only be guaranteed under the precondition that the creation amount is
non-negative. -/
theorem C10_init_no_validation (name : String) (x : ℚ) (hx : x < 0) :
    (AcctW.init name x).cash_balance = x ∧
    (AcctW.init name x).cash_balance < 0 ∧
    (AcctW.init name x).transaction_history = [] ∧
    (AcctW.init name x).holdings = [] :=
  ⟨rfl, hx, rfl, rfl⟩

theorem C10_init_no_validation_witness :
    (-10 : ℚ) < 0 ∧
    ((AcctW.init "Bad Investor" (-10)).cash_balance = -10 ∧
     (AcctW.init "Bad Investor" (-10)).cash_balance < 0 ∧
     (AcctW.init "Bad Investor" (-10)).transaction_history = [] ∧
     (AcctW.init "Bad Investor" (-10)).holdings = []) :=
  ⟨by norm_num, C10_init_no_validation "Bad Investor" (-10) (by norm_num)⟩

/-- C9 (counterexample): in `accounts_working.py` an account created
with the positive initial deposit 100 has an empty transaction
history — the creation amount is not routed through the deposit path
and no DEPOSIT record exists, contradicting the claim. -/
theorem C9_counterexample :
    (AcctW.init "Demo Trader" 100).transaction_history = [] := rfl

/-- C9 (amended): in the `Account` class embedded in
`test_accounts.py`, creation with a positive initial deposit `d` is
routed through `deposit`: construction succeeds and immediately
afterwards the transaction sequence is exactly one DEPOSIT record for
`d`, the balance is `d`, and `_initial_deposit` equals `d`. -/
theorem C9_init_routes_deposit (name : String) (d : ℚ) (hd : 0 < d) :
    AcctT.init name d = .ok
      { account_holder_name := name, balance := d, holdings := [],
        transactions := [{ type_str := "DEPOSIT", cash_impact := d,
                           balance_after := d, symbol := none,
                           quantity := none, price_per_share := none }],
        initial_deposit := d } := by
  have h1 : ¬ d < 0 := by linarith
  have h2 : ¬ d ≤ 0 := by linarith
  simp only [AcctT.init, AcctT.deposit, AcctT.log_transaction,
    if_neg h1, if_pos hd, if_neg h2, zero_add, List.nil_append]

theorem C9_init_routes_deposit_witness :
    (0 : ℚ) < 100 ∧
    AcctT.init "Jane Doe" 100 = .ok
      { account_holder_name := "Jane Doe", balance := 100,
        holdings := [],
        transactions := [{ type_str := "DEPOSIT", cash_impact := 100,
                           balance_after := 100, symbol := none,
                           quantity := none, price_per_share := none }],
        initial_deposit := 100 } :=
  ⟨by norm_num, C9_init_routes_deposit "Jane Doe" 100 (by norm_num)⟩

/-- C3: in `accounts_working.py`, buying any positive quantity of a
symbol the price oracle does not recognize fails with the
unknown-symbol error and returns the state unchanged. -/
theorem C3_buy_unknown_symbol (s : AcctW.State) (symbol : String)
    (q : Int) (hq : 0 < q) (hu : AcctW.get_share_price symbol = none) :
    AcctW.buy_shares s symbol q = (some Err.unknownSymbol, s) := by
  have hq' : ¬ q ≤ 0 := by omega
  have hu' : AcctW.get_share_price (pyUpper symbol) = none := by
    rw [acctW_price_pyUpper]; exact hu
  simp [AcctW.buy_shares, hq', hu']

theorem C3_buy_unknown_symbol_witness :
    (0 : Int) < 1 ∧ AcctW.get_share_price "XYZ" = none ∧
    AcctW.buy_shares (AcctW.init "x" 500) "XYZ" 1 =
      (some Err.unknownSymbol, AcctW.init "x" 500) :=
  ⟨by norm_num, by rfl,
   C3_buy_unknown_symbol (AcctW.init "x" 500) "XYZ" 1 (by norm_num) (by rfl)⟩

/-- C2 (counterexample): in `accounts_working.py`, a successful
deposit of 5 on a fresh account leaves `initial_deposit` unchanged,
contradicting the claim that `initial_deposit_total` grows by the
deposited amount. -/
theorem C2_counterexample :
    (AcctW.deposit (AcctW.init "u" 0) 5).2.initial_deposit ≠
      (AcctW.init "u" 0).initial_deposit + 5 := by
  norm_num [AcctW.deposit, AcctW.init]

/-- C2 (amended): for every account state and every amount `d > 0`,
`deposit d` succeeds and afterwards the cash balance has grown by `d`
and exactly one DEPOSIT record has been appended; in
`accounts.py` (variant A) `initial_deposit_total` additionally grows
by `d`, while in `accounts_working.py` (variant W) `initial_deposit`
is left unchanged. -/
theorem C2_deposit_effects :
    (∀ (s : AcctA.State) (d : ℚ), 0 < d →
      AcctA.deposit s d = (none, { s with
        balance := s.balance + d,
        initial_deposit_total := s.initial_deposit_total + d,
        transactions := s.transactions ++
          [{ type := "DEPOSIT", symbol := none, quantity := none,
             price := none, amount := d }] })) ∧
    (∀ (s : AcctW.State) (d : ℚ), 0 < d →
      AcctW.deposit s d = (none, { s with
        cash_balance := s.cash_balance + d,
        transaction_history := s.transaction_history ++
          [{ type := "Deposit", symbol := "CASH", quantity := 1,
             price_per_share := d, cash_impact := d,
             balance_after := s.cash_balance + d }] }) ∧
      (AcctW.deposit s d).2.initial_deposit = s.initial_deposit) := by
  constructor
  · intro s d hd
    have hd' : ¬ d ≤ 0 := by linarith
    simp [AcctA.deposit, AcctA.record_transaction, hd']
  · intro s d hd
    have hd' : ¬ d ≤ 0 := by linarith
    constructor
    · simp [AcctW.deposit, hd']
    · simp [AcctW.deposit, hd']

theorem C2_deposit_effects_witness :
    (0 : ℚ) < 5 ∧
    AcctA.deposit (AcctA.init "x") 5 = (none, { AcctA.init "x" with
      balance := (AcctA.init "x").balance + 5,
      initial_deposit_total := (AcctA.init "x").initial_deposit_total + 5,
      transactions := (AcctA.init "x").transactions ++
        [{ type := "DEPOSIT", symbol := none, quantity := none,
           price := none, amount := 5 }] }) ∧
    (AcctW.deposit (AcctW.init "y" 7) 5).2.initial_deposit =
      (AcctW.init "y" 7).initial_deposit :=
  ⟨by norm_num, C2_deposit_effects.1 (AcctA.init "x") 5 (by norm_num),
   (C2_deposit_effects.2 (AcctW.init "y" 7) 5 (by norm_num)).2⟩

/-- C7 (counterexample): in `accounts.py` (variant A) symbols are not
case-normalized: on an account holding cash 200, buying one share of
"aapl" and buying one share of "AAPL" produce different states (the
former creates a holdings entry keyed "aapl" at the default price
100.00, the latter an entry keyed "AAPL" at 170.50). -/
theorem C7_counterexample :
    AcctA.buy_shares (AcctA.deposit (AcctA.init "x") 200).2 "aapl" 1 ≠
    AcctA.buy_shares (AcctA.deposit (AcctA.init "x") 200).2 "AAPL" 1 := by
  intro h
  have h2 := congrArg (fun r => r.2.holdings) h
  have e1 : ("aapl" : String) ≠ "AAPL" := by decide
  have e2 : ("aapl" : String) ≠ "TSLA" := by decide
  have e3 : ("aapl" : String) ≠ "GOOGL" := by decide
  norm_num [AcctA.buy_shares, AcctA.deposit, AcctA.init,
    AcctA.record_transaction, AcctA.get_share_price, dset, dget,
    e1, e2, e3] at h2

/-- C7 (amended): in `accounts_working.py` (variant W), `buy_shares`
and `sell_shares` behave identically on a symbol and on its
upper-cased form, for every state and quantity: both are normalized
to the same holdings key.  Variant A performs no such normalization. -/
theorem C7_case_normalization (s : AcctW.State) (symbol : String)
    (q : Int) :
    AcctW.buy_shares s symbol q = AcctW.buy_shares s (pyUpper symbol) q ∧
    AcctW.sell_shares s symbol q = AcctW.sell_shares s (pyUpper symbol) q := by
  constructor
  · simp only [AcctW.buy_shares, pyUpper_idem]
  · simp only [AcctW.sell_shares, pyUpper_idem]

/-- C5 (counterexample): in `accounts_working.py`, valuing the
holdings of a state that holds one share of the unpriceable symbol
"XYZ" raises (result `none`) instead of skipping the symbol: this
variant has no graceful-degrade policy. -/
theorem C5_counterexample :
    AcctW.calculate_current_holdings_value
      { account_holder_name := "x", cash_balance := 0,
        initial_deposit := 0, holdings := [("XYZ", 1)],
        transaction_history := [] } = none := rfl

theorem acctT_holdingsValueLoop_eq (l : List (String × Int)) (acc : ℚ) :
    AcctT.holdingsValueLoop l acc = acc + specHoldingsValue l := by
  induction l generalizing acc with
  | nil => simp [AcctT.holdingsValueLoop, specHoldingsValue]
  | cons p t ih =>
    obtain ⟨sym, qty⟩ := p
    cases h : AcctT.get_share_price sym with
    | none => simp [AcctT.holdingsValueLoop, specHoldingsValue, h, ih]
    | some price =>
      simp [AcctT.holdingsValueLoop, specHoldingsValue, h, ih]
      ring

/-- C5 (amended): in the `Account` class embedded in
`test_accounts.py`, `calculate_current_holdings_value` is a total
function (it never raises): for every account state it equals the sum
of `price * quantity` over exactly the successfully priced holdings,
each held symbol the oracle cannot price contributing zero.
`accounts_working.py` instead raises on an unpriceable held symbol. -/
theorem C5_graceful_valuation (s : AcctT.State) :
    AcctT.calculate_current_holdings_value s = specHoldingsValue s.holdings := by
  simp [AcctT.calculate_current_holdings_value, acctT_holdingsValueLoop_eq]

/-- C6: in `accounts_working.py` the share-sufficiency check of
`sell_shares` precedes the price lookup: for every positive quantity
exceeding the held amount the call fails with the insufficient-shares
error whatever the symbol — in particular for an unpriceable one,
without consulting the oracle — and an unpriceable symbol produces
the unknown-symbol error exactly when the quantity check has passed;
the same ordering holds for the insufficient-shares check of
`accounts.py`. -/
theorem C6_sell_check_order :
    (∀ (s : AcctW.State) (symbol : String) (q : Int), 0 < q →
      dget s.holdings (pyUpper symbol) 0 < q →
      AcctW.sell_shares s symbol q = (some Err.insufficientShares, s)) ∧
    (∀ (s : AcctW.State) (symbol : String) (q : Int), 0 < q →
      q ≤ dget s.holdings (pyUpper symbol) 0 →
      AcctW.get_share_price symbol = none →
      AcctW.sell_shares s symbol q = (some Err.unknownSymbol, s)) ∧
    (∀ (s : AcctA.State) (symbol : String) (q : Int), 0 < q →
      dget s.holdings symbol 0 < q →
      AcctA.sell_shares s symbol q = (some Err.insufficientShares, s)) := by
  refine ⟨?_, ?_, ?_⟩
  · intro s symbol q hq hlt
    have hq' : ¬ q ≤ 0 := by omega
    have hg : hasKey s.holdings (pyUpper symbol) = false ∨
        dget s.holdings (pyUpper symbol) 0 < q := Or.inr hlt
    simp [AcctW.sell_shares, hq', hg]
  · intro s symbol q hq hge hu
    have hq' : ¬ q ≤ 0 := by omega
    have hne : dget s.holdings (pyUpper symbol) 0 ≠ 0 := by omega
    have hk : hasKey s.holdings (pyUpper symbol) = true :=
      hasKey_of_dget_ne _ _ _ hne
    have hg : ¬(hasKey s.holdings (pyUpper symbol) = false ∨
        dget s.holdings (pyUpper symbol) 0 < q) := by
      push_neg
      exact ⟨by simp [hk], by omega⟩
    have hu' : AcctW.get_share_price (pyUpper symbol) = none := by
      rw [acctW_price_pyUpper]; exact hu
    simp [AcctW.sell_shares, hq', hg, hu']
  · intro s symbol q hq hlt
    have hq' : ¬ q ≤ 0 := by omega
    simp [AcctA.sell_shares, hq', hlt]

theorem C6_sell_check_order_witness :
    ((0 : Int) < 5 ∧ dget [("AAPL", (1 : Int))] (pyUpper "AAPL") 0 < 5 ∧
      AcctW.sell_shares ⟨"x", 0, 0, [("AAPL", 1)], []⟩ "AAPL" 5 =
        (some Err.insufficientShares, ⟨"x", 0, 0, [("AAPL", 1)], []⟩)) ∧
    ((0 : Int) < 2 ∧ (2 : Int) ≤ dget [("XYZ", (3 : Int))] (pyUpper "XYZ") 0 ∧
      AcctW.get_share_price "XYZ" = none ∧
      AcctW.sell_shares ⟨"x", 0, 0, [("XYZ", 3)], []⟩ "XYZ" 2 =
        (some Err.unknownSymbol, ⟨"x", 0, 0, [("XYZ", 3)], []⟩)) ∧
    (dget [("AAPL", (1 : Int))] "AAPL" 0 < 5 ∧
      AcctA.sell_shares ⟨"x", 0, [("AAPL", 1)], [], 0⟩ "AAPL" 5 =
        (some Err.insufficientShares, ⟨"x", 0, [("AAPL", 1)], [], 0⟩)) :=
  ⟨⟨by norm_num, by decide,
    C6_sell_check_order.1 ⟨"x", 0, 0, [("AAPL", 1)], []⟩ "AAPL" 5
      (by norm_num) (by decide)⟩,
   ⟨by norm_num, by decide, by rfl,
    C6_sell_check_order.2.1 ⟨"x", 0, 0, [("XYZ", 3)], []⟩ "XYZ" 2
      (by norm_num) (by decide) (by rfl)⟩,
   ⟨by decide,
    C6_sell_check_order.2.2 ⟨"x", 0, [("AAPL", 1)], [], 0⟩ "AAPL" 5
      (by norm_num) (by decide)⟩⟩

theorem acctA_run_cases (s : AcctA.State) (op : Op) :
    ((AcctA.run s op).1 = none ∧
      (AcctA.run s op).2.transactions.length = s.transactions.length + 1) ∨
    ((AcctA.run s op).1 ≠ none ∧ (AcctA.run s op).2 = s) := by
  cases op with
  | deposit a =>
    by_cases h : a ≤ 0
    · right; simp [AcctA.run, AcctA.deposit, h]
    · left; simp [AcctA.run, AcctA.deposit, AcctA.record_transaction, h]
  | withdraw a =>
    by_cases h : a ≤ 0
    · right; simp [AcctA.run, AcctA.withdraw, h]
    · by_cases h2 : s.balance < a
      · right; simp [AcctA.run, AcctA.withdraw, h, h2]
      · left; simp [AcctA.run, AcctA.withdraw, AcctA.record_transaction, h, h2]
  | buy sym q =>
    by_cases h : q ≤ 0
    · right; simp [AcctA.run, AcctA.buy_shares, h]
    · by_cases h2 : s.balance < AcctA.get_share_price sym * (q : ℚ)
      · right; simp [AcctA.run, AcctA.buy_shares, h, h2]
      · left; simp [AcctA.run, AcctA.buy_shares, AcctA.record_transaction, h, h2]
  | sell sym q =>
    by_cases h : q ≤ 0
    · right; simp [AcctA.run, AcctA.sell_shares, h]
    · by_cases h2 : dget s.holdings sym 0 < q
      · right; simp [AcctA.run, AcctA.sell_shares, h, h2]
      · left; simp [AcctA.run, AcctA.sell_shares, AcctA.record_transaction, h, h2]

theorem acctW_run_cases (s : AcctW.State) (op : Op) :
    ((AcctW.run s op).1 = none ∧
      (AcctW.run s op).2.transaction_history.length =
        s.transaction_history.length + 1) ∨
    ((AcctW.run s op).1 ≠ none ∧ (AcctW.run s op).2 = s) := by
  cases op with
  | deposit a =>
    by_cases h : a ≤ 0
    · right; simp [AcctW.run, AcctW.deposit, h]
    · left; simp [AcctW.run, AcctW.deposit, h]
  | withdraw a =>
    by_cases h : a ≤ 0
    · right; simp [AcctW.run, AcctW.withdraw, h]
    · by_cases h2 : a > s.cash_balance
      · right; simp [AcctW.run, AcctW.withdraw, h, h2]
      · left; simp [AcctW.run, AcctW.withdraw, h, h2]
  | buy sym q =>
    by_cases h : q ≤ 0
    · right; simp [AcctW.run, AcctW.buy_shares, h]
    · cases hp : AcctW.get_share_price (pyUpper sym) with
      | none => right; simp [AcctW.run, AcctW.buy_shares, h, hp]
      | some price =>
        by_cases h2 : price * (q : ℚ) > s.cash_balance
        · right; simp [AcctW.run, AcctW.buy_shares, h, hp, h2]
        · left; simp [AcctW.run, AcctW.buy_shares, h, hp, h2]
  | sell sym q =>
    by_cases h : q ≤ 0
    · right; simp [AcctW.run, AcctW.sell_shares, h]
    · by_cases hg : hasKey s.holdings (pyUpper sym) = false ∨
          dget s.holdings (pyUpper sym) 0 < q
      · right; simp [AcctW.run, AcctW.sell_shares, h, hg]
      · cases hp : AcctW.get_share_price (pyUpper sym) with
        | none => right; simp [AcctW.run, AcctW.sell_shares, h, hg, hp]
        | some price => left; simp [AcctW.run, AcctW.sell_shares, h, hg, hp]

/-- C1: in both `accounts.py` (variant A) and `accounts_working.py`
(variant W), every mutating operation (deposit, withdraw, buy, sell)
is atomic: a successful call appends exactly one transaction record,
and a failing call returns with the entire state — balance, holdings,
transactions, deposit totals — unchanged. -/
theorem C1_atomicity :
    (∀ (s : AcctA.State) (op : Op),
      ((AcctA.run s op).1 = none →
        (AcctA.run s op).2.transactions.length = s.transactions.length + 1) ∧
      ((AcctA.run s op).1 ≠ none → (AcctA.run s op).2 = s)) ∧
    (∀ (s : AcctW.State) (op : Op),
      ((AcctW.run s op).1 = none →
        (AcctW.run s op).2.transaction_history.length =
          s.transaction_history.length + 1) ∧
      ((AcctW.run s op).1 ≠ none → (AcctW.run s op).2 = s)) := by
  constructor
  · intro s op
    rcases acctA_run_cases s op with ⟨h1, h2⟩ | ⟨h1, h2⟩
    · exact ⟨fun _ => h2, fun hc => absurd h1 hc⟩
    · exact ⟨fun hc => absurd hc h1, fun _ => h2⟩
  · intro s op
    rcases acctW_run_cases s op with ⟨h1, h2⟩ | ⟨h1, h2⟩
    · exact ⟨fun _ => h2, fun hc => absurd h1 hc⟩
    · exact ⟨fun hc => absurd hc h1, fun _ => h2⟩

theorem C1_atomicity_witness :
    (AcctA.run (AcctA.init "x") (Op.deposit 5)).2.transactions.length =
      (AcctA.init "x").transactions.length + 1 ∧
    (AcctW.run (AcctW.init "y" 0) (Op.withdraw 5)).2 = AcctW.init "y" 0 :=
  ⟨(C1_atomicity.1 (AcctA.init "x") (Op.deposit 5)).1
      (by norm_num [AcctA.run, AcctA.deposit, AcctA.record_transaction]),
   (C1_atomicity.2 (AcctW.init "y" 0) (Op.withdraw 5)).2
      (by
        intro hc
        norm_num [AcctW.run, AcctW.withdraw, AcctW.init] at hc
        exact Option.noConfusion hc)⟩

/-- The §3 invariant for variant A: every holdings value is strictly
positive and the cash balance is non-negative. -/
def AcctA.Inv (s : AcctA.State) : Prop :=
  (∀ p ∈ s.holdings, (0 : Int) < p.2) ∧ 0 ≤ s.balance

/-- The §3 invariant for variant W. -/
def AcctW.Inv (s : AcctW.State) : Prop :=
  (∀ p ∈ s.holdings, (0 : Int) < p.2) ∧ 0 ≤ s.cash_balance

theorem acctA_run_preserves (s : AcctA.State) (op : Op)
    (h : AcctA.Inv s) : AcctA.Inv (AcctA.run s op).2 := by
  obtain ⟨hpos, hbal⟩ := h
  cases op with
  | deposit a =>
    by_cases ha : a ≤ 0
    · simp only [AcctA.run, AcctA.deposit, if_pos ha]
      exact ⟨hpos, hbal⟩
    · push_neg at ha
      simp only [AcctA.run, AcctA.deposit, if_neg (not_le.mpr ha),
        AcctA.record_transaction]
      exact ⟨hpos, by dsimp only; linarith⟩
  | withdraw a =>
    by_cases ha : a ≤ 0
    · simp only [AcctA.run, AcctA.withdraw, if_pos ha]
      exact ⟨hpos, hbal⟩
    · by_cases hb : s.balance < a
      · simp only [AcctA.run, AcctA.withdraw, if_neg ha, if_pos hb]
        exact ⟨hpos, hbal⟩
      · push_neg at hb
        simp only [AcctA.run, AcctA.withdraw, if_neg ha,
          if_neg (not_lt.mpr hb), AcctA.record_transaction]
        exact ⟨hpos, by dsimp only; linarith⟩
  | buy sym q =>
    by_cases hq : q ≤ 0
    · simp only [AcctA.run, AcctA.buy_shares, if_pos hq]
      exact ⟨hpos, hbal⟩
    · by_cases hb : s.balance < AcctA.get_share_price sym * (q : ℚ)
      · simp only [AcctA.run, AcctA.buy_shares, if_neg hq, if_pos hb]
        exact ⟨hpos, hbal⟩
      · push_neg at hb hq
        simp only [AcctA.run, AcctA.buy_shares, if_neg (not_le.mpr hq),
          if_neg (not_lt.mpr hb), AcctA.record_transaction]
        refine ⟨?_, by dsimp only; linarith⟩
        intro p hp
        rcases mem_dset hp with hp' | hp'
        · have hd := dget_zero_nonneg s.holdings sym hpos
          rw [hp']
          dsimp only
          omega
        · exact hpos p hp'
  | sell sym q =>
    by_cases hq : q ≤ 0
    · simp only [AcctA.run, AcctA.sell_shares, if_pos hq]
      exact ⟨hpos, hbal⟩
    · by_cases hlt : dget s.holdings sym 0 < q
      · simp only [AcctA.run, AcctA.sell_shares, if_neg hq, if_pos hlt]
        exact ⟨hpos, hbal⟩
      · push_neg at hlt hq
        have hq0 : (0 : ℚ) < (q : ℚ) := by exact_mod_cast hq
        have hpr := acctA_price_pos sym
        simp only [AcctA.run, AcctA.sell_shares, if_neg (not_le.mpr hq),
          if_neg (not_lt.mpr hlt), AcctA.record_transaction]
        refine ⟨?_, by dsimp only; nlinarith⟩
        intro p hp
        dsimp only at hp
        by_cases hz : dget (dset s.holdings sym (dget s.holdings sym 0 - q)) sym 0 = 0
        · rw [if_pos hz] at hp
          exact hpos p (mem_derase_dset hp)
        · rw [if_neg hz] at hp
          rw [dget_dset_self] at hz
          rcases mem_dset hp with hp' | hp'
          · rw [hp']
            dsimp only
            omega
          · exact hpos p hp'

theorem acctW_run_preserves (s : AcctW.State) (op : Op)
    (h : AcctW.Inv s) : AcctW.Inv (AcctW.run s op).2 := by
  obtain ⟨hpos, hbal⟩ := h
  cases op with
  | deposit a =>
    by_cases ha : a ≤ 0
    · simp only [AcctW.run, AcctW.deposit, if_pos ha]
      exact ⟨hpos, hbal⟩
    · push_neg at ha
      simp only [AcctW.run, AcctW.deposit, if_neg (not_le.mpr ha)]
      exact ⟨hpos, by dsimp only; linarith⟩
  | withdraw a =>
    by_cases ha : a ≤ 0
    · simp only [AcctW.run, AcctW.withdraw, if_pos ha]
      exact ⟨hpos, hbal⟩
    · by_cases hb : a > s.cash_balance
      · simp only [AcctW.run, AcctW.withdraw, if_neg ha, if_pos hb]
        exact ⟨hpos, hbal⟩
      · push_neg at hb
        simp only [AcctW.run, AcctW.withdraw, if_neg ha,
          if_neg (not_lt.mpr hb)]
        exact ⟨hpos, by dsimp only; linarith⟩
  | buy sym q =>
    by_cases hq : q ≤ 0
    · simp only [AcctW.run, AcctW.buy_shares, if_pos hq]
      exact ⟨hpos, hbal⟩
    · cases hp : AcctW.get_share_price (pyUpper sym) with
      | none =>
        simp only [AcctW.run, AcctW.buy_shares, if_neg hq, hp]
        exact ⟨hpos, hbal⟩
      | some price =>
        by_cases hb : price * (q : ℚ) > s.cash_balance
        · simp only [AcctW.run, AcctW.buy_shares, if_neg hq, hp, if_pos hb]
          exact ⟨hpos, hbal⟩
        · push_neg at hb hq
          simp only [AcctW.run, AcctW.buy_shares, if_neg (not_le.mpr hq), hp,
            if_neg (not_lt.mpr hb)]
          refine ⟨?_, by dsimp only; linarith⟩
          intro p hmem
          rcases mem_dset hmem with hp' | hp'
          · have hd := dget_zero_nonneg s.holdings (pyUpper sym) hpos
            rw [hp']
            dsimp only
            omega
          · exact hpos p hp'
  | sell sym q =>
    by_cases hq : q ≤ 0
    · simp only [AcctW.run, AcctW.sell_shares, if_pos hq]
      exact ⟨hpos, hbal⟩
    · by_cases hg : hasKey s.holdings (pyUpper sym) = false ∨
          dget s.holdings (pyUpper sym) 0 < q
      · simp only [AcctW.run, AcctW.sell_shares, if_neg hq, if_pos hg]
        exact ⟨hpos, hbal⟩
      · cases hp : AcctW.get_share_price (pyUpper sym) with
        | none =>
          simp only [AcctW.run, AcctW.sell_shares, if_neg hq, if_neg hg, hp]
          exact ⟨hpos, hbal⟩
        | some price =>
          push_neg at hq
          have hge : q ≤ dget s.holdings (pyUpper sym) 0 :=
            not_lt.mp (fun hl => hg (Or.inr hl))
          have hq0 : (0 : ℚ) < (q : ℚ) := by exact_mod_cast hq
          have hpr := acctW_price_pos (pyUpper sym) price hp
          simp only [AcctW.run, AcctW.sell_shares, if_neg (not_le.mpr hq),
            if_neg hg, hp, AcctW.Inv]
          refine ⟨?_, by nlinarith⟩
          intro p hmem
          by_cases hz : dget (dset s.holdings (pyUpper sym)
              (dget s.holdings (pyUpper sym) 0 - q)) (pyUpper sym) 0 = 0
          · rw [if_pos hz] at hmem
            exact hpos p (mem_derase_dset hmem)
          · rw [if_neg hz] at hmem
            rw [dget_dset_self] at hz
            rcases mem_dset hmem with hp' | hp'
            · rw [hp']
              dsimp only
              omega
            · exact hpos p hp'

theorem acctA_runSeq_inv (s : AcctA.State) (ops : List Op)
    (h : AcctA.Inv s) : AcctA.Inv (AcctA.runSeq s ops) := by
  induction ops generalizing s with
  | nil => exact h
  | cons op rest ih =>
    show AcctA.Inv (AcctA.runSeq (AcctA.run s op).2 rest)
    exact ih _ (acctA_run_preserves s op h)

theorem acctW_runSeq_inv (s : AcctW.State) (ops : List Op)
    (h : AcctW.Inv s) : AcctW.Inv (AcctW.runSeq s ops) := by
  induction ops generalizing s with
  | nil => exact h
  | cons op rest ih =>
    show AcctW.Inv (AcctW.runSeq (AcctW.run s op).2 rest)
    exact ih _ (acctW_run_preserves s op h)

/-- C4: after any sequence of deposit/withdraw/buy/sell operations on
a freshly created account, every value in the holdings mapping is
strictly positive (a quantity reaching zero is removed) and the cash
balance is non-negative.  Variant A's constructor starts at balance 0;
variant W's takes a creation amount, required non-negative here per
the spec's lifecycle (§3) — see C10 for why that precondition is
necessary. -/
theorem C4_holdings_invariant :
    (∀ (account_id : String) (ops : List Op),
      AcctA.Inv (AcctA.runSeq (AcctA.init account_id) ops)) ∧
    (∀ (name : String) (d : ℚ), 0 ≤ d → ∀ (ops : List Op),
      AcctW.Inv (AcctW.runSeq (AcctW.init name d) ops)) := by
  constructor
  · intro account_id ops
    refine acctA_runSeq_inv _ _ ⟨?_, ?_⟩
    · intro p hp
      simp [AcctA.init] at hp
    · simp [AcctA.init]
  · intro name d hd ops
    refine acctW_runSeq_inv _ _ ⟨?_, ?_⟩
    · intro p hp
      simp [AcctW.init] at hp
    · simpa [AcctW.init] using hd

theorem C4_holdings_invariant_witness :
    (0 : ℚ) ≤ 1000 ∧
    AcctW.Inv (AcctW.runSeq (AcctW.init "x" 1000)
      [Op.buy "aapl" 2, Op.sell "AAPL" 1, Op.withdraw 100]) ∧
    AcctA.Inv (AcctA.runSeq (AcctA.init "x")
      [Op.deposit 50, Op.buy "ZZZ" 1]) :=
  ⟨by norm_num,
   C4_holdings_invariant.2 "x" 1000 (by norm_num)
     [Op.buy "aapl" 2, Op.sell "AAPL" 1, Op.withdraw 100],
   C4_holdings_invariant.1 "x" [Op.deposit 50, Op.buy "ZZZ" 1]⟩

/-- C8: buying `q > 0` shares and then selling `q` shares of the same
symbol at the (static, hence unchanged) oracle price returns the cash
balance exactly to its pre-buy value, and a symbol not held before
the buy has no holdings entry after the sell.  Stated for variant A
(any symbol, total oracle) and variant W (any symbol the oracle
prices); the held-quantity hypothesis `0 ≤ dget … 0` is the §3
invariant established in C4. -/
theorem C8_buy_sell_round_trip :
    (∀ (s : AcctA.State) (symbol : String) (q : Int), 0 < q →
      0 ≤ dget s.holdings symbol 0 →
      AcctA.get_share_price symbol * (q : ℚ) ≤ s.balance →
      (AcctA.buy_shares s symbol q).1 = none ∧
      (AcctA.sell_shares (AcctA.buy_shares s symbol q).2 symbol q).1 = none ∧
      (AcctA.sell_shares (AcctA.buy_shares s symbol q).2 symbol q).2.balance
        = s.balance ∧
      (hasKey s.holdings symbol = false →
        hasKey (AcctA.sell_shares (AcctA.buy_shares s symbol q).2 symbol
          q).2.holdings symbol = false)) ∧
    (∀ (s : AcctW.State) (symbol : String) (q : Int) (p : ℚ), 0 < q →
      AcctW.get_share_price symbol = some p →
      0 ≤ dget s.holdings (pyUpper symbol) 0 →
      p * (q : ℚ) ≤ s.cash_balance →
      (AcctW.buy_shares s symbol q).1 = none ∧
      (AcctW.sell_shares (AcctW.buy_shares s symbol q).2 symbol q).1 = none ∧
      (AcctW.sell_shares (AcctW.buy_shares s symbol q).2 symbol
        q).2.cash_balance = s.cash_balance ∧
      (hasKey s.holdings (pyUpper symbol) = false →
        hasKey (AcctW.sell_shares (AcctW.buy_shares s symbol q).2 symbol
          q).2.holdings (pyUpper symbol) = false)) := by
  constructor
  · intro s symbol q hq h0 hc
    have hq' : ¬ q ≤ 0 := by omega
    have hno : ¬ s.balance < AcctA.get_share_price symbol * (q : ℚ) :=
      not_lt.mpr hc
    have hbuy : AcctA.buy_shares s symbol q = (none, { s with
        balance := s.balance - AcctA.get_share_price symbol * (q : ℚ),
        holdings := dset s.holdings symbol (dget s.holdings symbol 0 + q),
        transactions := s.transactions ++
          [{ type := "BUY", symbol := some symbol, quantity := some q,
             price := some (AcctA.get_share_price symbol),
             amount := -(AcctA.get_share_price symbol * (q : ℚ)) }] }) := by
      simp [AcctA.buy_shares, AcctA.record_transaction, hq', hno]
    rw [hbuy]
    have hcur : dget (dset s.holdings symbol (dget s.holdings symbol 0 + q))
        symbol 0 = dget s.holdings symbol 0 + q := dget_dset_self _ _ _ _
    have hns : ¬ dget s.holdings symbol 0 + q < q := by omega
    refine ⟨rfl, ?_, ?_, ?_⟩
    · simp only [AcctA.sell_shares, AcctA.record_transaction, if_neg hq',
        hcur, if_neg hns]
    · simp only [AcctA.sell_shares, AcctA.record_transaction, if_neg hq',
        hcur, if_neg hns]
      show s.balance - AcctA.get_share_price symbol * (q : ℚ) +
          AcctA.get_share_price symbol * (q : ℚ) = s.balance
      ring
    · intro hk
      have hdg : dget s.holdings symbol 0 = 0 :=
        dget_of_not_hasKey s.holdings symbol 0 hk
      simp only [AcctA.sell_shares, AcctA.record_transaction, if_neg hq',
        hcur, if_neg hns, dset_dset_self, Int.add_sub_cancel]
      rw [dget_dset_self, hdg, if_pos rfl,
        derase_dset_of_not_hasKey _ _ _ hk]
      exact hk
  · intro s symbol q p hq hp h0 hc
    have hq' : ¬ q ≤ 0 := by omega
    have hp' : AcctW.get_share_price (pyUpper symbol) = some p := by
      rw [acctW_price_pyUpper]; exact hp
    have hno : ¬ p * (q : ℚ) > s.cash_balance := not_lt.mpr hc
    have hbuy : AcctW.buy_shares s symbol q = (none, { s with
        cash_balance := s.cash_balance - p * (q : ℚ),
        holdings := dset s.holdings (pyUpper symbol)
          (dget s.holdings (pyUpper symbol) 0 + q),
        transaction_history := s.transaction_history ++
          [{ type := "Buy", symbol := pyUpper symbol, quantity := q,
             price_per_share := p, cash_impact := -(p * (q : ℚ)),
             balance_after := s.cash_balance - p * (q : ℚ) }] }) := by
      simp [AcctW.buy_shares, hq', hp', hno]
    rw [hbuy]
    have hcur : dget (dset s.holdings (pyUpper symbol)
        (dget s.holdings (pyUpper symbol) 0 + q)) (pyUpper symbol) 0
        = dget s.holdings (pyUpper symbol) 0 + q := dget_dset_self _ _ _ _
    have hhk : hasKey (dset s.holdings (pyUpper symbol)
        (dget s.holdings (pyUpper symbol) 0 + q)) (pyUpper symbol) = true :=
      hasKey_dset_self _ _ _
    have hguard : ¬ (hasKey (dset s.holdings (pyUpper symbol)
          (dget s.holdings (pyUpper symbol) 0 + q)) (pyUpper symbol) = false ∨
        dget (dset s.holdings (pyUpper symbol)
          (dget s.holdings (pyUpper symbol) 0 + q)) (pyUpper symbol) 0 < q) := by
      push_neg
      refine ⟨by simp [hhk], ?_⟩
      rw [hcur]
      omega
    refine ⟨rfl, ?_, ?_, ?_⟩
    · simp only [AcctW.sell_shares, if_neg hq', if_neg hguard, hp']
    · simp only [AcctW.sell_shares, if_neg hq', if_neg hguard, hp']
      show s.cash_balance - p * (q : ℚ) + p * (q : ℚ) = s.cash_balance
      ring
    · intro hk
      have hdg : dget s.holdings (pyUpper symbol) 0 = 0 :=
        dget_of_not_hasKey s.holdings (pyUpper symbol) 0 hk
      simp only [AcctW.sell_shares, if_neg hq', if_neg hguard, hp']
      simp only [hcur, dset_dset_self, Int.add_sub_cancel]
      rw [dget_dset_self, hdg, if_pos rfl,
        derase_dset_of_not_hasKey _ _ _ hk]
      exact hk

theorem C8_buy_sell_round_trip_witness :
    ((0 : Int) < 2 ∧
      (0 : Int) ≤ dget ([] : List (String × Int)) "AAPL" 0 ∧
      AcctA.get_share_price "AAPL" * ((2 : Int) : ℚ) ≤ (500 : ℚ) ∧
      (AcctA.sell_shares (AcctA.buy_shares ⟨"x", 500, [], [], 0⟩ "AAPL" 2).2
        "AAPL" 2).2.balance = (500 : ℚ)) ∧
    (AcctW.get_share_price "aapl" = some 150.00 ∧
      (AcctW.sell_shares (AcctW.buy_shares ⟨"y", 500, 500, [], []⟩ "aapl" 2).2
        "aapl" 2).2.cash_balance = (500 : ℚ) ∧
      hasKey (AcctW.sell_shares (AcctW.buy_shares ⟨"y", 500, 500, [], []⟩
        "aapl" 2).2 "aapl" 2).2.holdings (pyUpper "aapl") = false) := by
  have hA := C8_buy_sell_round_trip.1 ⟨"x", 500, [], [], 0⟩ "AAPL" 2
    (by norm_num) (by decide)
    (by
      show AcctA.get_share_price "AAPL" * ((2 : Int) : ℚ) ≤ 500
      norm_num [AcctA.get_share_price])
  have hW := C8_buy_sell_round_trip.2 ⟨"y", 500, 500, [], []⟩ "aapl" 2 150.00
    (by norm_num) (by rfl) (by decide)
    (by
      show (150.00 : ℚ) * ((2 : Int) : ℚ) ≤ 500
      norm_num)
  exact ⟨⟨by norm_num, by decide,
    by
      show AcctA.get_share_price "AAPL" * ((2 : Int) : ℚ) ≤ 500
      norm_num [AcctA.get_share_price],
    hA.2.2.1⟩,
   ⟨by rfl, hW.2.2.1, hW.2.2.2 (by decide)⟩⟩
